import Mathlib

/-!
# Verification of the Lazy Dungeon Master plugin core (`src/main.js`)

Shallow embedding of the plugin's string-processing, JSON-extraction,
folder-scanning, asset-loading and zone-annotation logic, with theorems
settling the specification claims.  JS strings are modelled as `List Char`;
JS `indexOf` returns `Option Nat`; fallible operations return `Option`.
-/

set_option linter.unusedVariables false

abbrev Str := List Char

/-- The whitespace class used by JS `String.prototype.trim` and the regex
class `\s` (ECMAScript WhiteSpace ∪ LineTerminator). -/
def isJsWhitespace (c : Char) : Bool :=
  let n := c.toNat
  n = 0x09 || n = 0x0a || n = 0x0b || n = 0x0c || n = 0x0d || n = 0x20 ||
  n = 0xa0 || n = 0x1680 || (0x2000 <= n && n <= 0x200a) ||
  n = 0x2028 || n = 0x2029 || n = 0x202f || n = 0x205f || n = 0x3000 ||
  n = 0xfeff

/-- JS `String.prototype.trim`: drop leading and trailing whitespace. -/
def trim (s : Str) : Str :=
  ((s.dropWhile isJsWhitespace).reverse.dropWhile isJsWhitespace).reverse

/-- JS `String.prototype.indexOf`: index of the first occurrence of `pat`
in `s` (`none` models the JS result `-1`). -/
def indexOf (s pat : Str) : Option Nat :=
  match s with
  | [] => if pat.isPrefixOf ([] : Str) then some 0 else none
  | c :: s' =>
    if pat.isPrefixOf (c :: s') then some 0
    else (indexOf s' pat).map (· + 1)

/-- `pat` occurs in `s` at position `j`. -/
def occursAt (s pat : Str) (j : Nat) : Prop := pat <+: s.drop j

/-- Number of positions of `s` (including `s.length` itself) at which `pat`
occurs. -/
def countOcc (s pat : Str) : Nat :=
  match s with
  | [] => if pat.isPrefixOf ([] : Str) then 1 else 0
  | _ :: s' => (if pat.isPrefixOf s then 1 else 0) + countOcc s' pat

/-! ## Basic facts about `occursAt`, `indexOf` and `countOcc` -/

theorem occursAt_zero {s pat : Str} : occursAt s pat 0 ↔ pat <+: s := by
  simp [occursAt]

theorem occursAt_cons_succ {c : Char} {s pat : Str} {j : Nat} :
    occursAt (c :: s) pat (j + 1) ↔ occursAt s pat j := by
  simp [occursAt]

theorem indexOf_eq_some_iff {s pat : Str} {j : Nat} :
    indexOf s pat = some j ↔ occursAt s pat j ∧ ∀ k < j, ¬ occursAt s pat k := by
  induction s generalizing j with
  | nil =>
    by_cases h : pat.isPrefixOf ([] : Str)
    · have hp : pat <+: ([] : Str) := List.isPrefixOf_iff_prefix.mp h
      have hpe : pat = [] := List.prefix_nil.mp hp
      subst hpe
      constructor
      · intro hj
        simp [indexOf] at hj
        subst hj
        exact ⟨by simp [occursAt], by omega⟩
      · intro ⟨_, hmin⟩
        simp [indexOf]
        by_contra hne
        have h0 : 0 < j := by omega
        exact hmin 0 h0 (by simp [occursAt])
    · constructor
      · intro hj
        simp [indexOf, h] at hj
      · intro ⟨hocc, _⟩
        exfalso
        have : pat <+: ([] : Str) := by
          simpa [occursAt] using hocc
        exact h (List.isPrefixOf_iff_prefix.mpr this)
  | cons c s' ih =>
    by_cases h : pat.isPrefixOf (c :: s')
    · have hp : pat <+: (c :: s') := List.isPrefixOf_iff_prefix.mp h
      constructor
      · intro hj
        simp [indexOf, h] at hj
        subst hj
        exact ⟨by simpa [occursAt] using hp, by omega⟩
      · intro ⟨hocc, hmin⟩
        simp [indexOf, h]
        by_contra hne
        have h0 : 0 < j := by omega
        exact hmin 0 h0 (by simpa [occursAt] using hp)
    · have hnp : ¬ pat <+: (c :: s') := fun hp => h (List.isPrefixOf_iff_prefix.mpr hp)
      constructor
      · intro hj
        simp [indexOf, h] at hj
        obtain ⟨j', hj', rfl⟩ := hj
        obtain ⟨hocc, hmin⟩ := ih.mp hj'
        refine ⟨occursAt_cons_succ.mpr hocc, ?_⟩
        intro k hk
        match k with
        | 0 => simpa [occursAt_zero] using hnp
        | k + 1 =>
          rw [occursAt_cons_succ]
          exact hmin k (by omega)
      · intro ⟨hocc, hmin⟩
        match j with
        | 0 => exact absurd (occursAt_zero.mp hocc) hnp
        | j + 1 =>
          have hj' : indexOf s' pat = some j := by
            refine ih.mpr ⟨occursAt_cons_succ.mp hocc, ?_⟩
            intro k hk
            have := hmin (k + 1) (by omega)
            rw [occursAt_cons_succ] at this
            exact this
          simp [indexOf, h, hj']

theorem indexOf_eq_none_iff {s pat : Str} :
    indexOf s pat = none ↔ ∀ k, ¬ occursAt s pat k := by
  induction s with
  | nil =>
    by_cases h : pat.isPrefixOf ([] : Str)
    · simp only [indexOf, h, if_true]
      constructor
      · intro hc; exact absurd hc (by simp)
      · intro hall
        exact absurd (by simpa [occursAt] using List.isPrefixOf_iff_prefix.mp h)
          (hall 0)
    · simp only [indexOf, h, if_false]
      constructor
      · intro _ k
        intro hocc
        have : pat <+: ([] : Str) := by
          have := hocc
          simp only [occursAt, List.drop_nil] at this
          exact this
        exact h (List.isPrefixOf_iff_prefix.mpr this)
      · intro _; rfl
  | cons c s' ih =>
    by_cases h : pat.isPrefixOf (c :: s')
    · simp only [indexOf, h, if_true]
      constructor
      · intro hc; exact absurd hc (by simp)
      · intro hall
        exact absurd (by simpa [occursAt] using List.isPrefixOf_iff_prefix.mp h)
          (hall 0)
    · simp only [indexOf, h, if_false]
      constructor
      · intro hc k
        have hnone : indexOf s' pat = none := by
          cases he : indexOf s' pat with
          | none => rfl
          | some v => rw [he] at hc; simp at hc
        match k with
        | 0 =>
          intro hocc
          exact h (List.isPrefixOf_iff_prefix.mpr (occursAt_zero.mp hocc))
        | k + 1 =>
          rw [occursAt_cons_succ]
          exact ih.mp hnone k
      · intro hall
        have : indexOf s' pat = none := ih.mpr (fun k => by
          have := hall (k + 1)
          rw [occursAt_cons_succ] at this
          exact this)
        rw [this]
        rfl

theorem occursAt_length_le {s pat : Str} {j : Nat} (hpat : pat ≠ [])
    (h : occursAt s pat j) : j + pat.length ≤ s.length := by
  have hdrop : pat.length ≤ (s.drop j).length := h.length_le
  rw [List.length_drop] at hdrop
  by_cases hj : j ≤ s.length
  · omega
  · exfalso
    have : s.drop j = [] := List.drop_eq_nil_of_le (by omega)
    rw [occursAt, this] at h
    exact hpat (List.prefix_nil.mp h)

theorem prefix_of_append_of_length_le {pat X Y : Str}
    (h : pat <+: X ++ Y) (hl : pat.length ≤ X.length) : pat <+: X := by
  have h1 : pat = (X ++ Y).take pat.length := List.prefix_iff_eq_take.mp h
  rw [List.take_append_eq_append_take, Nat.sub_eq_zero_of_le hl, List.take_zero,
    List.append_nil] at h1
  rw [h1]
  exact List.take_prefix _ _

theorem occursAt_get {s pat : Str} {j : Nat} (h : occursAt s pat j)
    {i : Nat} (hi : i < pat.length) : s.get? (j + i) = pat.get? i := by
  obtain ⟨tail, htail⟩ := h
  have : s.get? (j + i) = (s.drop j).get? i := (List.get?_drop s j i).symm
  rw [this, ← htail, List.get?_append hi]

theorem occursAt_of_take {s pat : Str} {n j : Nat}
    (h : occursAt (s.take n) pat j) : occursAt s pat j := by
  rw [occursAt, List.drop_take] at h
  exact h.trans (List.take_prefix _ _)

theorem occursAt_append_left {A B pat : Str} {j : Nat}
    (h : occursAt A pat j) : occursAt (A ++ B) pat j := by
  rw [occursAt, List.drop_append_eq_append_drop]
  exact h.trans (List.prefix_append _ _)

theorem occursAt_append_right {A B pat : Str} {k : Nat}
    (h : occursAt B pat k) : occursAt (A ++ B) pat (A.length + k) := by
  rw [occursAt, List.drop_append_eq_append_drop,
    List.drop_eq_nil_of_le (by omega), List.nil_append]
  have : A.length + k - A.length = k := by omega
  rw [this]
  exact h

theorem occursAt_append_cases {A B pat : Str} {k : Nat} (hpat : pat ≠ [])
    (h : occursAt (A ++ B) pat k) :
    (k + pat.length ≤ A.length ∧ occursAt A pat k) ∨
    (A.length ≤ k ∧ occursAt B pat (k - A.length)) ∨
    (k < A.length ∧ A.length < k + pat.length ∧
      pat.get? (A.length - k) = B.get? 0) := by
  by_cases hk : A.length ≤ k
  · refine Or.inr (Or.inl ⟨hk, ?_⟩)
    rw [occursAt, List.drop_append_eq_append_drop,
      List.drop_eq_nil_of_le hk, List.nil_append] at h
    exact h
  · push_neg at hk
    by_cases hfit : k + pat.length ≤ A.length
    · refine Or.inl ⟨hfit, ?_⟩
      rw [occursAt, List.drop_append_eq_append_drop,
        Nat.sub_eq_zero_of_le (by omega), List.drop_zero] at h
      have : pat.length ≤ (A.drop k).length := by
        rw [List.length_drop]; omega
      exact prefix_of_append_of_length_le h this
    · push_neg at hfit
      refine Or.inr (Or.inr ⟨hk, hfit, ?_⟩)
      have hAk : A.length = k + (A.length - k) := by omega
      have := occursAt_get h (i := A.length - k) (by omega)
      rw [← this, ← hAk]
      rw [List.get?_append_right (by omega)]
      simp

theorem countOcc_eq_zero {s pat : Str} (hpat : pat ≠ [])
    (h : ∀ k, ¬ occursAt s pat k) : countOcc s pat = 0 := by
  induction s with
  | nil =>
    have : ¬ pat.isPrefixOf ([] : Str) := fun hp =>
      h 0 (by simpa [occursAt] using List.isPrefixOf_iff_prefix.mp hp)
    simp [countOcc, this]
  | cons c s' ih =>
    have h0 : ¬ pat.isPrefixOf (c :: s') := fun hp =>
      h 0 (by simpa [occursAt] using List.isPrefixOf_iff_prefix.mp hp)
    have hrest : ∀ k, ¬ occursAt s' pat k := fun k hk =>
      h (k + 1) (occursAt_cons_succ.mpr hk)
    simp [countOcc, h0, ih hrest]

theorem countOcc_eq_one {s pat : Str} {j : Nat} (hpat : pat ≠ [])
    (hj : occursAt s pat j) (huniq : ∀ k, occursAt s pat k → k = j) :
    countOcc s pat = 1 := by
  induction s generalizing j with
  | nil =>
    exfalso
    have hlen := occursAt_length_le hpat hj
    simp only [List.length_nil] at hlen
    exact hpat (List.length_eq_zero.mp (by omega))
  | cons c s' ih =>
    match j with
    | 0 =>
      have hp : pat.isPrefixOf (c :: s') :=
        List.isPrefixOf_iff_prefix.mpr (occursAt_zero.mp hj)
      have hrest : ∀ k, ¬ occursAt s' pat k := fun k hk => by
        have := huniq (k + 1) (occursAt_cons_succ.mpr hk)
        omega
      simp [countOcc, hp, countOcc_eq_zero hpat hrest]
    | j + 1 =>
      have h0 : ¬ pat.isPrefixOf (c :: s') := fun hp => by
        have := huniq 0 (occursAt_zero.mpr (List.isPrefixOf_iff_prefix.mp hp))
        omega
      have huniq' : ∀ k, occursAt s' pat k → k = j := fun k hk => by
        have := huniq (k + 1) (occursAt_cons_succ.mpr hk)
        omega
      simp [countOcc, h0, ih (occursAt_cons_succ.mp hj) huniq']

/-! ## Facts about `trim` -/

theorem dropWhile_idem {p : Char → Bool} {l : Str} :
    (l.dropWhile p).dropWhile p = l.dropWhile p := by
  induction l with
  | nil => rfl
  | cons c l' ih =>
    by_cases h : p c
    · simp [List.dropWhile_cons, h, ih]
    · simp [List.dropWhile_cons, h]

theorem head?_dropWhile_not_pred {p : Char → Bool} {l : Str} {c : Char}
    (h : (l.dropWhile p).head? = some c) : p c = false := by
  induction l with
  | nil => simp [List.dropWhile] at h
  | cons d l' ih =>
    by_cases hd : p d
    · rw [List.dropWhile_cons, if_pos hd] at h
      exact ih h
    · rw [List.dropWhile_cons, if_neg hd] at h
      simp at h
      subst h
      simpa using hd

theorem trim_prefix_dropWhile {s : Str} :
    trim s <+: s.dropWhile isJsWhitespace := by
  have h : (s.dropWhile isJsWhitespace).reverse.dropWhile isJsWhitespace <:+
      (s.dropWhile isJsWhitespace).reverse := List.dropWhile_suffix _
  have h2 := List.reverse_prefix.mpr h
  rw [List.reverse_reverse] at h2
  exact h2

theorem trim_infix {s : Str} : trim s <:+: s :=
  trim_prefix_dropWhile.isInfix.trans (List.dropWhile_suffix _).isInfix

theorem trim_head?_not_ws {s : Str} {c : Char} (h : (trim s).head? = some c) :
    isJsWhitespace c = false := by
  obtain ⟨u, hu⟩ := trim_prefix_dropWhile (s := s)
  cases htr : trim s with
  | nil => rw [htr] at h; simp at h
  | cons d t =>
    rw [htr] at h hu
    simp only [List.head?_cons, Option.some.injEq] at h
    subst h
    exact head?_dropWhile_not_pred (l := s) (by rw [← hu]; rfl)

theorem trim_getLast?_not_ws {s : Str} {c : Char}
    (h : (trim s).getLast? = some c) : isJsWhitespace c = false := by
  rw [trim, List.getLast?_reverse] at h
  exact head?_dropWhile_not_pred h

theorem trim_trim {s : Str} : trim (trim s) = trim s := by
  have h1 : (trim s).dropWhile isJsWhitespace = trim s := by
    cases he : trim s with
    | nil => rfl
    | cons c t =>
      have hcw : isJsWhitespace c = false :=
        trim_head?_not_ws (s := s) (by rw [he]; rfl)
      simp [List.dropWhile_cons, hcw]
  have h2 : (trim s).reverse.dropWhile isJsWhitespace = (trim s).reverse := by
    rw [trim, List.reverse_reverse]
    exact dropWhile_idem
  show (((trim s).dropWhile isJsWhitespace).reverse.dropWhile
    isJsWhitespace).reverse = trim s
  rw [h1, h2, List.reverse_reverse]

/-! ## The note patcher (`updateNoteWithPrep`, `src/main.js` lines 439-463) -/

/-- `<!-- LAZY_DM_START -->` -/
def startMarker : Str := ("<!-- LAZY_DM_START -->").data

/-- `<!-- LAZY_DM_END -->` -/
def endMarker : Str := ("<!-- LAZY_DM_END -->").data

/-- The first-run branch of `updateNoteWithPrep`: the template literal
`` `${current.trim()}\n\n${startMarker}\n${markdown.trim()}\n${endMarker}\n` ``. -/
def appendPrepBlock (current markdown : Str) : Str :=
  trim current ++ '\n' :: '\n' ::
    (startMarker ++ '\n' :: (trim markdown ++ '\n' :: (endMarker ++ ['\n'])))

/-- `updateNoteWithPrep` (the computation of `nextContent` from the current
document text and the synthesized markdown; reading and writing the note are
host-vault effects). -/
def updateNoteWithPrep (current markdown : Str) : Str :=
  match indexOf current startMarker, indexOf current endMarker with
  | some startIndex, some endIndex =>
    if startIndex < endIndex then
      current.take (startIndex + startMarker.length) ++
        '\n' :: '\n' :: (trim markdown ++ '\n' :: '\n' :: current.drop endIndex)
    else
      appendPrepBlock current markdown
  | some _, none => appendPrepBlock current markdown
  | none, _ => appendPrepBlock current markdown

example : updateNoteWithPrep ("hello").data ("world").data =
    ("hello\n\n<!-- LAZY_DM_START -->\nworld\n<!-- LAZY_DM_END -->\n").data := by
  decide

example : updateNoteWithPrep
    ("a\n<!-- LAZY_DM_START -->\nold\n<!-- LAZY_DM_END -->\nb").data ("new").data =
    ("a\n<!-- LAZY_DM_START -->\n\nnew\n\n<!-- LAZY_DM_END -->\nb").data := by
  decide

theorem occursAt_of_infix {t m pat : Str} (hinf : t <:+: m) {k : Nat}
    (hocc : occursAt t pat k) : ∃ j, occursAt m pat j := by
  obtain ⟨u, v, huv⟩ := hinf
  refine ⟨u.length + k, ?_⟩
  rw [← huv, List.append_assoc]
  exact occursAt_append_right (occursAt_append_left hocc)

theorem startMarker_ne_nil : startMarker ≠ [] := by decide

theorem endMarker_ne_nil : endMarker ≠ [] := by decide

theorem startMarker_no_newline :
    ∀ i, i < startMarker.length → ¬ (startMarker.get? i = some '\n') := by
  decide

theorem endMarker_no_newline :
    ∀ i, i < endMarker.length → ¬ (endMarker.get? i = some '\n') := by
  decide

theorem startMarker_head_only_langle :
    ∀ i, i < startMarker.length → 0 < i → ¬ (startMarker.get? i = some '<') := by
  decide

theorem endMarker_get_zero : endMarker.get? 0 = some '<' := by decide

/-- Two markers found in order by `indexOf` cannot overlap: the end marker
starts at or after the end of the start marker. -/
theorem marker_gap {D : Str} {s e : Nat}
    (hS : occursAt D startMarker s) (hE : occursAt D endMarker e)
    (hse : s < e) : s + startMarker.length ≤ e := by
  by_contra hlt
  push_neg at hlt
  have hi : e - s < startMarker.length := by omega
  have h1 := occursAt_get hS (i := e - s) hi
  have h2 := occursAt_get hE (i := 0) (by decide)
  rw [Nat.add_zero, endMarker_get_zero] at h2
  have hadd : s + (e - s) = e := by omega
  rw [hadd, h2] at h1
  exact startMarker_head_only_langle (e - s) hi (by omega) h1.symm

theorem updateNote_replace_eq (D m : Str) {s e : Nat}
    (hs : indexOf D startMarker = some s)
    (he : indexOf D endMarker = some e)
    (hse : s < e) :
    updateNoteWithPrep D m =
      D.take (s + startMarker.length) ++ '\n' :: '\n' ::
        (trim m ++ '\n' :: '\n' :: D.drop e) := by
  simp only [updateNoteWithPrep, hs, he, if_pos hse]

/-- No occurrence of the end marker inside the inserted middle region
`"\n\n" ++ t ++ "\n\n" ++ S` at a position before the copy of `S`. -/
theorem no_end_in_middle {t S : Str} {j : Nat}
    (ht : ∀ k, ¬ occursAt t endMarker k)
    (hocc : occursAt ('\n' :: '\n' :: (t ++ '\n' :: '\n' :: S)) endMarker j)
    (hj : j < t.length + 4) : False := by
  match j with
  | 0 =>
    have h := occursAt_get hocc (i := 0) (by decide)
    rw [Nat.add_zero, endMarker_get_zero] at h
    simp at h
  | 1 =>
    have h := occursAt_get hocc (i := 0) (by decide)
    rw [Nat.add_zero, endMarker_get_zero] at h
    simp at h
  | j + 2 =>
    have hocc' : occursAt (t ++ '\n' :: '\n' :: S) endMarker j :=
      occursAt_cons_succ.mp (occursAt_cons_succ.mp hocc)
    rcases occursAt_append_cases endMarker_ne_nil hocc' with
      ⟨hfit, hocct⟩ | ⟨hge, hoccS⟩ | ⟨hklt, hstr, hchar⟩
    · exact ht j hocct
    · have hj2 : j - t.length < 2 := by omega
      have h := occursAt_get hoccS (i := 0) (by decide)
      rw [Nat.add_zero, endMarker_get_zero] at h
      have hnl : ('\n' :: '\n' :: S).get? (j - t.length) = some '\n' := by
        rcases (by omega : j - t.length = 0 ∨ j - t.length = 1) with h0 | h0 <;>
          rw [h0] <;> rfl
      rw [hnl] at h
      simp at h
    · have h0 : ('\n' :: '\n' :: S).get? 0 = some '\n' := rfl
      rw [h0] at hchar
      exact endMarker_no_newline (t.length - j) (by omega) hchar

/-- After a replace-path patch, the first occurrence of the start marker is
still at `s`. -/
theorem indexOf_patched_start (D m : Str) {s e : Nat}
    (hs : indexOf D startMarker = some s)
    (he : indexOf D endMarker = some e)
    (hse : s < e) :
    indexOf (D.take (s + startMarker.length) ++ '\n' :: '\n' ::
      (trim m ++ '\n' :: '\n' :: D.drop e)) startMarker = some s := by
  obtain ⟨occS, minS⟩ := indexOf_eq_some_iff.mp hs
  have hsD : s + startMarker.length ≤ D.length :=
    occursAt_length_le startMarker_ne_nil occS
  have hPlen : (D.take (s + startMarker.length)).length = s + startMarker.length := by
    rw [List.length_take]; omega
  refine indexOf_eq_some_iff.mpr ⟨?_, ?_⟩
  · apply occursAt_append_left
    rw [occursAt, List.drop_take]
    have harith : s + startMarker.length - s = startMarker.length := by omega
    rw [harith]
    have h1 := List.prefix_iff_eq_take.mp occS
    rw [← h1]
  · intro k hk hocc
    rcases occursAt_append_cases startMarker_ne_nil hocc with
      ⟨hfit, hoccP⟩ | ⟨hge, _⟩ | ⟨hklt, hstr, hchar⟩
    · exact minS k hk (occursAt_of_take hoccP)
    · rw [hPlen] at hge; omega
    · have h0 : ('\n' :: '\n' :: (trim m ++ '\n' :: '\n' :: D.drop e)).get? 0 =
          some '\n' := rfl
      rw [h0] at hchar
      exact startMarker_no_newline _ (by omega) hchar

/-- After a replace-path patch, the first occurrence of the end marker is at
the start of the retained tail `D.drop e`, i.e. at
`s + startMarker.length + (trim m).length + 4`. -/
theorem indexOf_patched_end (D m : Str) {s e : Nat}
    (hs : indexOf D startMarker = some s)
    (he : indexOf D endMarker = some e)
    (hse : s < e)
    (hm : indexOf m endMarker = none) :
    indexOf (D.take (s + startMarker.length) ++ '\n' :: '\n' ::
      (trim m ++ '\n' :: '\n' :: D.drop e)) endMarker =
      some (s + startMarker.length + ((trim m).length + 4)) := by
  obtain ⟨occS, minS⟩ := indexOf_eq_some_iff.mp hs
  obtain ⟨occE, minE⟩ := indexOf_eq_some_iff.mp he
  have gap : s + startMarker.length ≤ e := marker_gap occS occE hse
  have hsD : s + startMarker.length ≤ D.length :=
    occursAt_length_le startMarker_ne_nil occS
  have hPlen : (D.take (s + startMarker.length)).length = s + startMarker.length := by
    rw [List.length_take]; omega
  have hL22 : startMarker.length = 22 := by decide
  have hE20 : endMarker.length = 20 := by decide
  have ht : ∀ k, ¬ occursAt (trim m) endMarker k := by
    intro k hk
    obtain ⟨j, hj⟩ := occursAt_of_infix trim_infix hk
    exact indexOf_eq_none_iff.mp hm j hj
  have hMdrop : ('\n' :: '\n' :: (trim m ++ '\n' :: '\n' :: D.drop e) : Str).drop
      ((trim m).length + 4) = D.drop e := by
    have h4 : (trim m).length + 4 = ((trim m).length + 2) + 1 + 1 := by omega
    rw [h4]
    simp only [List.drop_succ_cons]
    rw [List.drop_append_eq_append_drop, List.drop_eq_nil_of_le (by omega)]
    have h2 : (trim m).length + 2 - (trim m).length = 2 := by omega
    rw [h2]
    rfl
  refine indexOf_eq_some_iff.mpr ⟨?_, ?_⟩
  · have hMocc : occursAt ('\n' :: '\n' :: (trim m ++ '\n' :: '\n' :: D.drop e))
        endMarker ((trim m).length + 4) := by
      rw [occursAt, hMdrop]
      exact occE
    have := occursAt_append_right (A := D.take (s + startMarker.length)) hMocc
    rw [hPlen] at this
    have harith : s + startMarker.length + ((trim m).length + 4) =
        s + startMarker.length + ((trim m).length + 4) := rfl
    exact this
  · intro k hk hocc
    rcases occursAt_append_cases endMarker_ne_nil hocc with
      ⟨hfit, hoccP⟩ | ⟨hge, hoccM⟩ | ⟨hklt, hstr, hchar⟩
    · have hkD : occursAt D endMarker k := occursAt_of_take hoccP
      have hke : k < e := by rw [hPlen, hL22] at hfit; omega
      exact minE k hke hkD
    · rw [hPlen] at hge hoccM
      exact no_end_in_middle ht hoccM (by omega)
    · have h0 : ('\n' :: '\n' :: (trim m ++ '\n' :: '\n' :: D.drop e)).get? 0 =
          some '\n' := rfl
      rw [h0] at hchar
      exact endMarker_no_newline _ (by omega) hchar

/-- A nonempty string that neither starts nor ends with a newline occurs
exactly once in `"\n\n" ++ t ++ "\n\n"`. -/
theorem countOcc_blankline {t : Str} (ht : t ≠ [])
    (hh : ¬ (t.get? 0 = some '\n'))
    (hl : ¬ (t.get? (t.length - 1) = some '\n')) :
    countOcc ('\n' :: '\n' :: (t ++ ['\n', '\n'])) t = 1 := by
  have htlen : 0 < t.length := List.length_pos.mpr ht
  apply countOcc_eq_one ht (j := 2)
  · show t <+: ('\n' :: '\n' :: (t ++ ['\n', '\n'])).drop 2
    simp only [List.drop_succ_cons, List.drop_zero]
    exact List.prefix_append t _
  · intro k hocc
    rcases k with _ | k
    · exfalso
      have h := occursAt_get hocc (i := 0) htlen
      rw [Nat.add_zero] at h
      exact hh (by rw [← h]; rfl)
    rcases k with _ | k
    · exfalso
      have h := occursAt_get hocc (i := 0) htlen
      exact hh (by rw [← h]; rfl)
    have hocc' : occursAt (t ++ ['\n', '\n']) t k :=
      occursAt_cons_succ.mp (occursAt_cons_succ.mp hocc)
    rcases Nat.eq_zero_or_pos k with rfl | hkpos
    · rfl
    · exfalso
      have hbound := occursAt_length_le ht hocc'
      rw [List.length_append] at hbound
      have hb2 : (['\n', '\n'] : Str).length = 2 := rfl
      rw [hb2] at hbound
      have h := occursAt_get hocc' (i := t.length - 1) (by omega)
      have hidx : (t ++ ['\n', '\n']).get? (k + (t.length - 1)) = some '\n' := by
        rw [List.get?_append_right (by omega)]
        have harith : k + (t.length - 1) - t.length = k - 1 := by omega
        rw [harith]
        rcases (by omega : k - 1 = 0 ∨ k - 1 = 1) with h0 | h0 <;> rw [h0] <;> rfl
      rw [hidx] at h
      exact hl h.symm

theorem middle_drop (t S : Str) :
    ('\n' :: '\n' :: (t ++ '\n' :: '\n' :: S) : Str).drop (t.length + 4) = S := by
  have h4 : t.length + 4 = (t.length + 2) + 1 + 1 := by omega
  rw [h4]
  simp only [List.drop_succ_cons]
  rw [List.drop_append_eq_append_drop, List.drop_eq_nil_of_le (by omega)]
  have h2 : t.length + 2 - t.length = 2 := by omega
  rw [h2]
  rfl

theorem middle_take (t S : Str) :
    ('\n' :: '\n' :: (t ++ '\n' :: '\n' :: S) : Str).take (t.length + 4) =
      '\n' :: '\n' :: (t ++ ['\n', '\n']) := by
  have h4 : t.length + 4 = (t.length + 2) + 1 + 1 := by omega
  rw [h4]
  simp only [List.take_succ_cons]
  have h2 : t.length + 2 = t.length + 2 := rfl
  rw [List.take_append_eq_append_take, List.take_of_length_le (by omega)]
  have h3 : t.length + 2 - t.length = 2 := by omega
  rw [h3]
  rfl

/-- C1: on the replace path — the document's first start-marker occurrence at
`s`, first end-marker occurrence at `e`, `s < e`, and a markdown containing
neither marker — `updateNoteWithPrep` is idempotent; the text strictly before
the start marker and the text from the end marker to the end of the document
are byte-identical before and after the patch; the region strictly between
the markers is a blank line, the trimmed markdown, and a blank line; and,
provided the trimmed markdown is nonempty (the amendment), that region
contains the trimmed markdown exactly once. -/
theorem C1_note_patch_idempotent_frame (D m R t : Str) (s e : Nat)
    (hs : indexOf D startMarker = some s)
    (he : indexOf D endMarker = some e)
    (hse : s < e)
    (hm1 : indexOf m startMarker = none)
    (hm2 : indexOf m endMarker = none)
    (hR : R = updateNoteWithPrep D m)
    (ht : t = trim m) :
    updateNoteWithPrep R m = R ∧
    R.take s = D.take s ∧
    indexOf R startMarker = some s ∧
    indexOf R endMarker = some (s + startMarker.length + (t.length + 4)) ∧
    R.drop (s + startMarker.length + (t.length + 4)) = D.drop e ∧
    (R.take (s + startMarker.length + (t.length + 4))).drop
      (s + startMarker.length) = '\n' :: '\n' :: (t ++ ['\n', '\n']) ∧
    (t ≠ [] → countOcc ((R.take (s + startMarker.length + (t.length + 4))).drop
      (s + startMarker.length)) t = 1) := by
  subst hR ht
  obtain ⟨occS, minS⟩ := indexOf_eq_some_iff.mp hs
  have hsD : s + startMarker.length ≤ D.length :=
    occursAt_length_le startMarker_ne_nil occS
  have hPlen : (D.take (s + startMarker.length)).length = s + startMarker.length := by
    rw [List.length_take]; omega
  have hRe := updateNote_replace_eq D m hs he hse
  have hs' := indexOf_patched_start D m hs he hse
  have he' := indexOf_patched_end D m hs he hse hm2
  rw [hRe]
  have htake : (D.take (s + startMarker.length) ++ '\n' :: '\n' ::
      (trim m ++ '\n' :: '\n' :: D.drop e)).take
      (s + startMarker.length + ((trim m).length + 4)) =
      D.take (s + startMarker.length) ++
        '\n' :: '\n' :: (trim m ++ ['\n', '\n']) := by
    have hidx : s + startMarker.length + ((trim m).length + 4) =
        (D.take (s + startMarker.length)).length + ((trim m).length + 4) := by
      omega
    rw [hidx, List.take_append, middle_take]
  have hdrop : (D.take (s + startMarker.length) ++ '\n' :: '\n' ::
      (trim m ++ '\n' :: '\n' :: D.drop e)).drop
      (s + startMarker.length + ((trim m).length + 4)) = D.drop e := by
    have hidx : s + startMarker.length + ((trim m).length + 4) =
        (D.take (s + startMarker.length)).length + ((trim m).length + 4) := by
      omega
    rw [hidx, List.drop_append, middle_drop]
  have hregion : ((D.take (s + startMarker.length) ++ '\n' :: '\n' ::
      (trim m ++ '\n' :: '\n' :: D.drop e)).take
      (s + startMarker.length + ((trim m).length + 4))).drop
      (s + startMarker.length) = '\n' :: '\n' :: (trim m ++ ['\n', '\n']) := by
    rw [htake]
    exact List.drop_left' hPlen
  refine ⟨?_, ?_, hs', he', hdrop, hregion, ?_⟩
  · rw [updateNote_replace_eq _ m hs' he' (by omega)]
    rw [hdrop]
    have htakeP : (D.take (s + startMarker.length) ++ '\n' :: '\n' ::
        (trim m ++ '\n' :: '\n' :: D.drop e)).take (s + startMarker.length) =
        D.take (s + startMarker.length) :=
      List.take_left' hPlen
    rw [htakeP]
  · rw [List.take_append_eq_append_take, hPlen,
      Nat.sub_eq_zero_of_le (by omega), List.take_zero, List.append_nil,
      List.take_take, min_eq_left (by omega)]
  · intro htne
    rw [hregion]
    apply countOcc_blankline htne
    · intro hc
      have hhead : (trim m).head? = some '\n' := by
        rw [← List.get?_zero]
        exact hc
      have := trim_head?_not_ws hhead
      simp [isJsWhitespace] at this
    · intro hc
      have hlast : (trim m).getLast? = some '\n' := by
        rw [List.getLast?_eq_get?]
        exact hc
      have := trim_getLast?_not_ws hlast
      simp [isJsWhitespace] at this

/-- Witness for C1: a concrete document `startMarker ++ endMarker` and the
markdown `"hi"`; the patch is idempotent and the region between the markers
contains the trimmed markdown exactly once. -/
theorem C1_note_patch_witness :
    updateNoteWithPrep
        (updateNoteWithPrep (startMarker ++ endMarker) ('h' :: ['i']))
        ('h' :: ['i']) =
      updateNoteWithPrep (startMarker ++ endMarker) ('h' :: ['i']) ∧
    countOcc (((updateNoteWithPrep (startMarker ++ endMarker)
        ('h' :: ['i'])).take
        (0 + startMarker.length + ((trim ('h' :: ['i'])).length + 4))).drop
      (0 + startMarker.length)) (trim ('h' :: ['i'])) = 1 := by
  have h := C1_note_patch_idempotent_frame (startMarker ++ endMarker)
    ('h' :: ['i'])
    (updateNoteWithPrep (startMarker ++ endMarker) ('h' :: ['i']))
    (trim ('h' :: ['i'])) 0 22
    (by decide) (by decide) (by decide) (by decide) (by decide) rfl rfl
  exact ⟨h.1, h.2.2.2.2.2.2 (by decide)⟩

/-- C1 counterexample: for a markdown that trims to the empty string, the
region strictly between the markers of the patched document does not contain
the trimmed markdown exactly once — the empty pattern occurs at all five
positions of the blank region — refuting the unrestricted "exactly once"
clause of the claim. -/
theorem C1_note_patch_counterexample :
    indexOf (startMarker ++ endMarker) startMarker = some 0 ∧
    indexOf (startMarker ++ endMarker) endMarker = some 22 ∧
    indexOf ([] : Str) startMarker = none ∧
    indexOf ([] : Str) endMarker = none ∧
    countOcc (((updateNoteWithPrep (startMarker ++ endMarker) []).take
      (0 + startMarker.length + ((trim ([] : Str)).length + 4))).drop
      (0 + startMarker.length)) (trim ([] : Str)) = 5 := by
  decide

/-- The first-run (append) branch is taken exactly when no marker pair is
found in valid order. -/
theorem updateNote_append_eq (D m : Str)
    (hno : ∀ s e, indexOf D startMarker = some s →
      indexOf D endMarker = some e → ¬ s < e) :
    updateNoteWithPrep D m = appendPrepBlock D m := by
  unfold updateNoteWithPrep
  cases hS : indexOf D startMarker with
  | none => rfl
  | some s =>
    cases hE : indexOf D endMarker with
    | none => rfl
    | some e =>
      simp [hno s e hS hE]

/-- C6: for a document with no valid marker pair, one patch produces the
trimmed document, a blank line, then the block start marker / newline /
trimmed markdown / newline / end marker / trailing newline (amended: the
prior content and the markdown are preserved after trimming of
leading/trailing whitespace, not byte-identically, and the end marker is
followed by a trailing newline). -/
theorem C6_first_run_append (D m : Str)
    (hno : ∀ s e, indexOf D startMarker = some s →
      indexOf D endMarker = some e → ¬ s < e) :
    updateNoteWithPrep D m =
      trim D ++ '\n' :: '\n' ::
        (startMarker ++ '\n' :: (trim m ++ '\n' :: (endMarker ++ ['\n']))) ∧
    trim D <+: updateNoteWithPrep D m ∧
    (startMarker ++ '\n' :: (trim m ++ '\n' :: (endMarker ++ ['\n']))) <:+
      updateNoteWithPrep D m := by
  have h := updateNote_append_eq D m hno
  refine ⟨h, ?_, ?_⟩
  · rw [h, appendPrepBlock]
    exact List.prefix_append _ _
  · rw [h, appendPrepBlock]
    refine ⟨trim D ++ ['\n', '\n'], ?_⟩
    simp

/-- Witness for C6 at the concrete document `"hello"` and markdown `"x"`. -/
theorem C6_first_run_witness :
    updateNoteWithPrep ('h' :: 'e' :: 'l' :: 'l' :: ['o']) ['x'] =
      trim ('h' :: 'e' :: 'l' :: 'l' :: ['o']) ++ '\n' :: '\n' ::
        (startMarker ++ '\n' ::
          (trim ['x'] ++ '\n' :: (endMarker ++ ['\n']))) := by
  have h := C6_first_run_append ('h' :: 'e' :: 'l' :: 'l' :: ['o']) ['x']
    (by
      intro s e hs he hlt
      rw [show indexOf ('h' :: 'e' :: 'l' :: 'l' :: ['o']) startMarker = none
        from by decide] at hs
      exact Option.noConfusion hs)
  exact h.1

/-- C6 counterexample: for the document `" a"` (no markers) and the markdown
`" x "`, neither the original document content nor the original markdown
occurs anywhere in the patched document (both are trimmed on the first-run
path), and the patched document ends with a newline after the end marker —
refuting the byte-identical-preservation reading of the claim. -/
theorem C6_first_run_counterexample :
    indexOf (' ' :: ['a']) startMarker = none ∧
    indexOf (' ' :: ['a']) endMarker = none ∧
    indexOf (updateNoteWithPrep (' ' :: ['a']) (' ' :: 'x' :: [' ']))
      (' ' :: ['a']) = none ∧
    indexOf (updateNoteWithPrep (' ' :: ['a']) (' ' :: 'x' :: [' ']))
      (' ' :: 'x' :: [' ']) = none ∧
    (updateNoteWithPrep (' ' :: ['a']) (' ' :: 'x' :: [' '])).getLast? =
      some '\n' := by
  decide

/-! ## JSON fence stripping (`stripJsonFences`, `src/main.js` lines 232-236) -/

/-- The backquote character U+0060. -/
def backquoteChar : Char := Char.ofNat 96

/-- A three-backquote fence. -/
def fence : Str := [backquoteChar, backquoteChar, backquoteChar]

/-- The optional language tag `json` of the leading fence. -/
def jsonTag : Str := ['j', 's', 'o', 'n']

/-- Length of the match of the anchored leading-fence alternative of the
regex `^` fence `(?:json)?\s*[\r\n]?` at position 0; `0` when it does not
match (a real match is at least 3 long).  The greedy `\s*` swallows any
newline, so the final `[\r\n]?` always matches the empty string. -/
def leadFenceLen (s : Str) : Nat :=
  if fence.isPrefixOf s then
    (3 + (if jsonTag.isPrefixOf (s.drop 3) then 4 else 0)) +
      ((s.drop (3 + (if jsonTag.isPrefixOf (s.drop 3) then 4 else 0))).takeWhile
        isJsWhitespace).length
  else 0

/-- One global pass of `text.replace(/^` fence `(?:json)?\s*[\r\n]?|` fence
`$/g, "")`: the leading-fence match is removed, and the end-anchored fence is
removed when it lies at or after the scan position left by the leading match
(removing the last three characters of the remainder). -/
def replaceFences (s : Str) : Str :=
  if fence.isSuffixOf s ∧ leadFenceLen s + 3 ≤ s.length then
    (s.drop (leadFenceLen s)).take ((s.drop (leadFenceLen s)).length - 3)
  else s.drop (leadFenceLen s)

/-- `stripJsonFences` (lines 232-236): empty input short-circuits to `""`;
otherwise the fence matches are removed and the result is trimmed. -/
def stripJsonFences (text : Str) : Str :=
  if text = [] then [] else trim (replaceFences text)

example : stripJsonFences (("```json\n\x7b\x7d\n```").data) = ("\x7b\x7d").data := by
  decide

example : stripJsonFences ((" hi ").data) = ('h' :: ['i']) := by decide

example : stripJsonFences (("```").data) = [] := by decide

example : stripJsonFences (("abc```").data) = ('a' :: 'b' :: ['c']) := by decide

theorem stripJsonFences_eq_of_ne_nil {x : Str} (h : x ≠ []) :
    stripJsonFences x = trim (replaceFences x) := by
  unfold stripJsonFences
  rw [if_neg h]

theorem leadFenceLen_eq_zero {x : Str} (h1 : ¬ fence <+: x) :
    leadFenceLen x = 0 := by
  unfold leadFenceLen
  rw [if_neg (fun hp => h1 (List.isPrefixOf_iff_prefix.mp hp))]

theorem replaceFences_eq_self {x : Str} (h1 : ¬ fence <+: x)
    (h2 : ¬ fence <:+ x) : replaceFences x = x := by
  unfold replaceFences
  rw [leadFenceLen_eq_zero h1]
  rw [if_neg (fun hc => h2 (List.isSuffixOf_iff_suffix.mp hc.1))]
  exact List.drop_zero x

/-- C3 (amended): `stripJsonFences` is idempotent on every string whose
stripped form neither begins nor ends with a three-backquote fence.  (The
unrestricted claim fails: a stripped result can itself begin or end with a
fence, which a second application removes.) -/
theorem C3_strip_fences_idempotent (s : Str)
    (h1 : ¬ fence <+: stripJsonFences s)
    (h2 : ¬ fence <:+ stripJsonFences s) :
    stripJsonFences (stripJsonFences s) = stripJsonFences s := by
  by_cases hne : stripJsonFences s = []
  · rw [hne]
    rfl
  · have hs0 : s ≠ [] := fun h0 => hne (by rw [h0]; rfl)
    have hrepr := stripJsonFences_eq_of_ne_nil hs0
    rw [stripJsonFences_eq_of_ne_nil hne, replaceFences_eq_self h1 h2, hrepr,
      trim_trim, ← hrepr]

/-- Witness for C3 at the concrete input `"abc"`. -/
theorem C3_strip_fences_witness :
    stripJsonFences (stripJsonFences ('a' :: 'b' :: ['c'])) =
      stripJsonFences ('a' :: 'b' :: ['c']) :=
  C3_strip_fences_idempotent ('a' :: 'b' :: ['c']) (by decide) (by decide)

/-- C3 counterexample: on the input of six backquotes followed by `x`, one
strip removes only the first three backquotes (the trailing alternative does
not match because the string does not end with a fence), so the stripped
result `"```x"` still begins with a fence and a second strip changes it to
`"x"` — idempotence fails. -/
theorem C3_strip_fences_counterexample :
    stripJsonFences
        (stripJsonFences (List.replicate 6 backquoteChar ++ ['x'])) ≠
      stripJsonFences (List.replicate 6 backquoteChar ++ ['x']) := by
  decide

/-! ## JSON values and `JSON.parse` (used by `parseJsonContent`) -/

inductive JsonValue where
  | null
  | bool (b : Bool)
  | num (mantissa : Int) (exp10 : Int)
  | str (s : Str)
  | arr (elems : List JsonValue)
  | obj (members : List (Str × JsonValue))

/-- JSON insignificant whitespace (ECMA-404): space, tab, LF, CR. -/
def jsonWs (c : Char) : Bool :=
  c = ' ' || c = '\t' || c = '\n' || c = '\r'

def skipWs (s : Str) : Str := s.dropWhile jsonWs

def hexVal (c : Char) : Option Nat :=
  if c.isDigit then some (c.toNat - 48)
  else if 'a' ≤ c && c ≤ 'f' then some (c.toNat - 87)
  else if 'A' ≤ c && c ≤ 'F' then some (c.toNat - 55)
  else none

def parseHex4 : Str → Option (Nat × Str)
  | c1 :: c2 :: c3 :: c4 :: r =>
    match hexVal c1, hexVal c2, hexVal c3, hexVal c4 with
    | some a, some b, some c, some d => some ((((a * 16 + b) * 16 + c) * 16 + d), r)
    | _, _, _, _ => none
  | _ => none

/-- JSON string body after the opening quote.  `\uXXXX` escapes denote UTF-16
code units; a lone surrogate (not representable as a Lean `Char`) is
approximated by `Char.ofNat`'s default. -/
def parseStringBody : Nat → Str → Option (Str × Str)
  | 0, _ => none
  | _ + 1, [] => none
  | f + 1, c :: rest =>
    if c = '"' then some ([], rest)
    else if c = '\\' then
      match rest with
      | [] => none
      | e :: rest2 =>
        if e = '"' then (parseStringBody f rest2).map (fun p => ('"' :: p.1, p.2))
        else if e = '\\' then
          (parseStringBody f rest2).map (fun p => ('\\' :: p.1, p.2))
        else if e = '/' then
          (parseStringBody f rest2).map (fun p => ('/' :: p.1, p.2))
        else if e = 'b' then
          (parseStringBody f rest2).map (fun p => ('\x08' :: p.1, p.2))
        else if e = 'f' then
          (parseStringBody f rest2).map (fun p => ('\x0c' :: p.1, p.2))
        else if e = 'n' then
          (parseStringBody f rest2).map (fun p => ('\n' :: p.1, p.2))
        else if e = 'r' then
          (parseStringBody f rest2).map (fun p => ('\r' :: p.1, p.2))
        else if e = 't' then
          (parseStringBody f rest2).map (fun p => ('\t' :: p.1, p.2))
        else if e = 'u' then
          match parseHex4 rest2 with
          | some (n, r') =>
            (parseStringBody f r').map (fun p => (Char.ofNat n :: p.1, p.2))
          | none => none
        else none
    else if c.toNat < 32 then none
    else (parseStringBody f rest).map (fun p => (c :: p.1, p.2))

def digitsToNat (ds : Str) : Nat :=
  ds.foldl (fun a c => a * 10 + (c.toNat - 48)) 0

/-- A JSON number literal: `-? int frac? exp?`, with no leading zeros. -/
def parseNumber (s : Str) : Option (JsonValue × Str) :=
  let sgn : Bool × Str := match s with
    | '-' :: r => (true, r)
    | _ => (false, s)
  let intPart : Option (Str × Str) :=
    match sgn.2 with
    | '0' :: r => some (['0'], r)
    | c :: r =>
      if c.isDigit then
        some (c :: r.takeWhile Char.isDigit, r.dropWhile Char.isDigit)
      else none
    | [] => none
  match intPart with
  | none => none
  | some (ip, s2) =>
    let fracPart : Option (Str × Str) :=
      match s2 with
      | '.' :: r =>
        if r.takeWhile Char.isDigit = [] then none
        else some (r.takeWhile Char.isDigit, r.dropWhile Char.isDigit)
      | _ => some ([], s2)
    match fracPart with
    | none => none
    | some (fp, s3) =>
      let expPart : Option (Int × Str) :=
        match s3 with
        | c :: r =>
          if c = 'e' || c = 'E' then
            let er : Int × Str := match r with
              | '+' :: r2 => (1, r2)
              | '-' :: r2 => (-1, r2)
              | _ => (1, r)
            if er.2.takeWhile Char.isDigit = [] then none
            else some (er.1 * (digitsToNat (er.2.takeWhile Char.isDigit) : Int),
              er.2.dropWhile Char.isDigit)
          else some (0, s3)
        | [] => some (0, [])
      match expPart with
      | none => none
      | some (ex, s4) =>
        some (JsonValue.num
          (if sgn.1 then -(digitsToNat (ip ++ fp) : Int)
           else (digitsToNat (ip ++ fp) : Int))
          (ex - (fp.length : Int)), s4)

mutual

/-- One JSON value, fuel-bounded (the fuel always suffices for the top-level
call below since every recursive call consumes at least one character). -/
def parseValue : Nat → Str → Option (JsonValue × Str)
  | 0, _ => none
  | f + 1, s =>
    if ("null").data.isPrefixOf s then some (JsonValue.null, s.drop 4)
    else if ("true").data.isPrefixOf s then some (JsonValue.bool true, s.drop 4)
    else if ("false").data.isPrefixOf s then some (JsonValue.bool false, s.drop 5)
    else
      match s with
      | [] => none
      | c :: rest =>
        if c = '"' then
          (parseStringBody f rest).map (fun p => (JsonValue.str p.1, p.2))
        else if c = '{' then
          match skipWs rest with
          | '}' :: r => some (JsonValue.obj [], r)
          | s1 => (parseObjectItems f s1).map (fun p => (JsonValue.obj p.1, p.2))
        else if c = '[' then
          match skipWs rest with
          | ']' :: r => some (JsonValue.arr [], r)
          | s1 => (parseArrayItems f s1).map (fun p => (JsonValue.arr p.1, p.2))
        else if c = '-' || c.isDigit then parseNumber s
        else none

/-- `value (ws ',' ws value)* ws ']'`, starting at a value. -/
def parseArrayItems : Nat → Str → Option (List JsonValue × Str)
  | 0, _ => none
  | f + 1, s =>
    match parseValue f s with
    | none => none
    | some (v, r) =>
      match skipWs r with
      | ',' :: r2 =>
        (parseArrayItems f (skipWs r2)).map (fun p => (v :: p.1, p.2))
      | ']' :: r2 => some ([v], r2)
      | _ => none

/-- `string ws ':' ws value (ws ',' ws string ...)* ws '}'`, starting at a
member key. -/
def parseObjectItems : Nat → Str → Option (List (Str × JsonValue) × Str)
  | 0, _ => none
  | f + 1, s =>
    match s with
    | '"' :: r =>
      match parseStringBody f r with
      | none => none
      | some (key, r1) =>
        match skipWs r1 with
        | ':' :: r2 =>
          match parseValue f (skipWs r2) with
          | none => none
          | some (v, r3) =>
            match skipWs r3 with
            | ',' :: r4 =>
              (parseObjectItems f (skipWs r4)).map
                (fun p => ((key, v) :: p.1, p.2))
            | '}' :: r4 => some ([(key, v)], r4)
            | _ => none
        | _ => none
    | _ => none

end

/-- `JSON.parse` on a JS string: one JSON text with optional surrounding
insignificant whitespace; `none` models a thrown `SyntaxError`. -/
def jsonParse (s : Str) : Option JsonValue :=
  match parseValue ((skipWs s).length + 1) (skipWs s) with
  | some (v, r) => if skipWs r = [] then some v else none
  | none => none

example : jsonParse (("0").data) = some (JsonValue.num 0 0) := rfl

example : jsonParse ((" -12.50e2 ").data) = some (JsonValue.num (-1250) 0) := rfl

example : jsonParse (("[1, \x7b\x22a\x22: null\x7d]").data) =
    some (JsonValue.arr [JsonValue.num 1 0,
      JsonValue.obj [(['a'], JsonValue.null)]]) := rfl

example : jsonParse (("01").data) = none := rfl

example : jsonParse (("not json").data) = none := rfl

/-! ## The extraction retry loop (`requestExtractor`, lines 404-426, and
`parseJsonContent`, lines 237-245) -/

/-- `parseJsonContent`: falsy content short-circuits to `null`; otherwise
`JSON.parse` of the fence-stripped content, `null` on a parse error. -/
def parseJsonContent (content : Str) : Option JsonValue :=
  if content = [] then none
  else jsonParse (stripJsonFences content)

/-- JS truthiness of a parsed JSON value, as tested by `if (parsed)`. -/
def jsTruthy : JsonValue → Bool
  | .null => false
  | .bool b => b
  | .num m _ => m != 0
  | .str s => !s.isEmpty
  | .arr _ => true
  | .obj _ => true

/-- `"Extractor failed to produce valid JSON after retry."` -/
def extractorFailedMessage : Str :=
  ("Extractor failed to produce valid JSON after retry.").data

/-- Result of a `requestExtractor` run: the returned value or thrown error,
together with the number of `createChatCompletion` calls made. -/
structure ExtractorRun where
  result : Except Str JsonValue
  calls : Nat

/-- The `for (let attempt = 1; attempt <= 2; attempt++)` loop of
`requestExtractor`.  `contents n` models the string
`response?.choices?.[0]?.message?.content || ""` of the `(n+1)`-st
`createChatCompletion` response (transport failures, which propagate as
exceptions, are outside this model).  A parsed-but-falsy value fails the
`if (parsed)` test and is retried like a parse failure. -/
def extractAttempts (contents : Nat → Str) : Nat → Nat → ExtractorRun
  | 0, calls => ⟨Except.error extractorFailedMessage, calls⟩
  | remaining + 1, calls =>
    match parseJsonContent (contents calls) with
    | some parsed =>
      if jsTruthy parsed then ⟨Except.ok parsed, calls + 1⟩
      else extractAttempts contents remaining (calls + 1)
    | none => extractAttempts contents remaining (calls + 1)

/-- `requestExtractor`: at most 2 attempts, then a terminal error. -/
def requestExtractor (contents : Nat → Str) : ExtractorRun :=
  extractAttempts contents 2 0

/-- C2: if every chat-completion response has first-choice message content
that fails to parse as JSON after fence stripping, `requestExtractor` makes
exactly 2 `createChatCompletion` calls and then fails terminally with the
`ExtractionFailedError`; it never makes a third call. -/
theorem C2_retry_bound (contents : Nat → Str)
    (h : ∀ n, parseJsonContent (contents n) = none) :
    requestExtractor contents =
      ⟨Except.error extractorFailedMessage, 2⟩ := by
  simp [requestExtractor, extractAttempts, h 0, h 1]

/-- Witness for C2: a mock that always answers `"not json"`. -/
theorem C2_retry_bound_witness :
    requestExtractor (fun _ => ("not json").data) =
      ⟨Except.error extractorFailedMessage, 2⟩ :=
  C2_retry_bound (fun _ => ("not json").data) (fun _ => rfl)

/-- C4 (amended): if the first response's content parses (after fence
stripping) to a JS-truthy JSON value, `requestExtractor` returns that value
immediately on attempt 1 with exactly one `createChatCompletion` call.  (The
truthiness restriction is the amendment: the claim as stated fails for
contents parsing to `null`, `false`, `0` or `""`.) -/
theorem C4_first_attempt_success (contents : Nat → Str) (v : JsonValue)
    (h : parseJsonContent (contents 0) = some v)
    (ht : jsTruthy v = true) :
    requestExtractor contents = ⟨Except.ok v, 1⟩ := by
  simp [requestExtractor, extractAttempts, h, ht]

/-- Witness for C4: a response whose content is `"{}"`. -/
theorem C4_first_attempt_success_witness :
    requestExtractor (fun _ => ("\x7b\x7d").data) =
      ⟨Except.ok (JsonValue.obj []), 1⟩ :=
  C4_first_attempt_success (fun _ => ("\x7b\x7d").data) (JsonValue.obj [])
    rfl rfl

/-- C4 counterexample: the content `"0"` parses successfully as the JSON
value `0`, yet `requestExtractor` does not return it on attempt 1 — the
falsy parse result fails the `if (parsed)` test, so the loop makes a second
call and then throws. -/
theorem C4_first_attempt_success_counterexample :
    parseJsonContent (("0").data) = some (JsonValue.num 0 0) ∧
    (requestExtractor (fun _ => ("0").data)).calls = 2 ∧
    (requestExtractor (fun _ => ("0").data)).result =
      Except.error extractorFailedMessage :=
  ⟨rfl, rfl, rfl⟩

example : requestExtractor (fun _ => ("null").data) =
    ⟨Except.error extractorFailedMessage, 2⟩ := rfl

example : requestExtractor
      (fun n => if n = 0 then ("oops").data else ("\x5b1\x5d").data) =
    ⟨Except.ok (JsonValue.arr [JsonValue.num 1 0]), 2⟩ := rfl

/-! ## Folder scanning (`buildFolderSummary`, `src/main.js` lines 149-165) -/

/-- ASCII lowercasing, the canonicalization relevant to the `/i` flag on the
filename regexes. -/
def lcChar (c : Char) : Char :=
  if 'A' ≤ c && c ≤ 'Z' then Char.ofNat (c.toNat + 32) else c

def lcStr (s : Str) : Str := s.map lcChar

/-- `/\.(png|jpe?g|webp)$/i.test(name)` -/
def isImageName (name : Str) : Bool :=
  (".png").data.isSuffixOf (lcStr name) ||
  (".jpg").data.isSuffixOf (lcStr name) ||
  (".jpeg").data.isSuffixOf (lcStr name) ||
  (".webp").data.isSuffixOf (lcStr name)

/-- `/_player\.(png|jpe?g|webp)$/i.test(name)` -/
def isPlayerImageName (name : Str) : Bool :=
  ("_player.png").data.isSuffixOf (lcStr name) ||
  ("_player.jpg").data.isSuffixOf (lcStr name) ||
  ("_player.jpeg").data.isSuffixOf (lcStr name) ||
  ("_player.webp").data.isSuffixOf (lcStr name)

/-- `/\.pdf$/i.test(name)` -/
def isPdfName (name : Str) : Bool :=
  (".pdf").data.isSuffixOf (lcStr name)

structure TFile where
  name : Str
  path : Str
  basename : Str
deriving DecidableEq

/-- A direct child of a folder: a file, or a non-file entry (subfolder),
which the `instanceof TFile` filter drops. -/
inductive VaultItem where
  | file (f : TFile)
  | subfolder (path : Str)
deriving DecidableEq

structure AssetRef where
  path : Str
  name : Str
deriving DecidableEq

structure FolderSummary where
  folderPath : Str
  maps : List AssetRef
  pcs : List AssetRef
deriving DecidableEq

/-- `folder?.children?.filter((item) => item instanceof TFile)`. -/
def childFiles (children : List VaultItem) : List TFile :=
  children.filterMap (fun it => match it with
    | .file f => some f
    | .subfolder _ => none)

/-- `buildFolderSummary` over a folder with path `folderPath` and direct
children `children`. -/
def buildFolderSummary (folderPath : Str) (children : List VaultItem) :
    FolderSummary :=
  { folderPath := folderPath
    maps := (if (((childFiles children).filter
          (fun f => isImageName f.name)).filter
          (fun f => isPlayerImageName f.name)).length ≠ 0 then
        ((childFiles children).filter (fun f => isImageName f.name)).filter
          (fun f => isPlayerImageName f.name)
      else
        (childFiles children).filter (fun f => isImageName f.name)).map
        (fun f => AssetRef.mk f.path f.basename)
    pcs := ((childFiles children).filter (fun f => isPdfName f.name)).map
      (fun f => AssetRef.mk f.path f.basename) }

theorem isImageName_of_isPlayerImageName {n : Str}
    (h : isPlayerImageName n = true) : isImageName n = true := by
  unfold isPlayerImageName at h
  unfold isImageName
  simp only [Bool.or_eq_true] at h ⊢
  rcases h with ((h | h) | h) | h
  · exact Or.inl (Or.inl (Or.inl
      (List.isSuffixOf_iff_suffix.mpr
        ((by decide : (".png").data <:+ ("_player.png").data).trans
          (List.isSuffixOf_iff_suffix.mp h)))))
  · exact Or.inl (Or.inl (Or.inr
      (List.isSuffixOf_iff_suffix.mpr
        ((by decide : (".jpg").data <:+ ("_player.jpg").data).trans
          (List.isSuffixOf_iff_suffix.mp h)))))
  · exact Or.inl (Or.inr
      (List.isSuffixOf_iff_suffix.mpr
        ((by decide : (".jpeg").data <:+ ("_player.jpeg").data).trans
          (List.isSuffixOf_iff_suffix.mp h))))
  · exact Or.inr
      (List.isSuffixOf_iff_suffix.mpr
        ((by decide : (".webp").data <:+ ("_player.webp").data).trans
          (List.isSuffixOf_iff_suffix.mp h)))

/-- C5: if the folder's direct children contain at least one file whose name
matches the player-view pattern, `maps` is exactly the player-view images
and no others; if the folder contains recognized images but no player-view
images, `maps` is all recognized images. -/
theorem C5_map_selection (folderPath : Str) (children : List VaultItem) :
    ((∃ f, f ∈ childFiles children ∧ isPlayerImageName f.name = true) →
      (buildFolderSummary folderPath children).maps =
        ((childFiles children).filter (fun f => isPlayerImageName f.name)).map
          (fun f => AssetRef.mk f.path f.basename)) ∧
    ((childFiles children).filter (fun f => isImageName f.name) ≠ [] →
      ((childFiles children).filter (fun f => isPlayerImageName f.name)) = [] →
      (buildFolderSummary folderPath children).maps =
        ((childFiles children).filter (fun f => isImageName f.name)).map
          (fun f => AssetRef.mk f.path f.basename)) := by
  have hff : (((childFiles children).filter (fun f => isImageName f.name)).filter
      (fun f => isPlayerImageName f.name)) =
      (childFiles children).filter (fun f => isPlayerImageName f.name) := by
    rw [List.filter_filter]
    apply List.filter_congr
    intro a _
    cases hp : isPlayerImageName a.name
    · simp
    · simp [isImageName_of_isPlayerImageName hp]
  constructor
  · intro ⟨f, hf, hpf⟩
    have hmem : f ∈ (childFiles children).filter
        (fun f => isPlayerImageName f.name) :=
      List.mem_filter.mpr ⟨hf, hpf⟩
    have hne : (((childFiles children).filter (fun f => isImageName f.name)).filter
        (fun f => isPlayerImageName f.name)).length ≠ 0 := by
      rw [hff]
      intro hlen
      rw [List.length_eq_zero.mp hlen] at hmem
      exact List.not_mem_nil f hmem
    rw [hff] at hne
    unfold buildFolderSummary
    simp only [hff]
    rw [if_pos hne]
  · intro himg hnop
    have hz : (((childFiles children).filter (fun f => isImageName f.name)).filter
        (fun f => isPlayerImageName f.name)).length = 0 := by
      rw [hff, hnop]
      rfl
    unfold buildFolderSummary
    simp only [hz, ne_eq, not_true_eq_false, if_false, not_false_eq_true]

/-- Witness for C5: a folder with `a_player.png` and `b.png` selects only the
player view; a folder with `c.jpg` and `d.webp` (no player views) selects
all images. -/
theorem C5_map_selection_witness :
    (buildFolderSummary (("f").data)
      [VaultItem.file (TFile.mk (("a_player.png").data)
          (("f/a_player.png").data) (("a_player").data)),
       VaultItem.file (TFile.mk (("b.png").data)
          (("f/b.png").data) (("b").data)),
       VaultItem.subfolder (("f/sub").data)]).maps =
      [AssetRef.mk (("f/a_player.png").data) (("a_player").data)] ∧
    (buildFolderSummary (("f").data)
      [VaultItem.file (TFile.mk (("c.jpg").data)
          (("f/c.jpg").data) (("c").data)),
       VaultItem.file (TFile.mk (("d.webp").data)
          (("f/d.webp").data) (("d").data))]).maps =
      [AssetRef.mk (("f/c.jpg").data) (("c").data),
       AssetRef.mk (("f/d.webp").data) (("d").data)] := by
  constructor
  · have h := (C5_map_selection (("f").data)
      [VaultItem.file (TFile.mk (("a_player.png").data)
          (("f/a_player.png").data) (("a_player").data)),
       VaultItem.file (TFile.mk (("b.png").data)
          (("f/b.png").data) (("b").data)),
       VaultItem.subfolder (("f/sub").data)]).1
      ⟨TFile.mk (("a_player.png").data) (("f/a_player.png").data)
          (("a_player").data), by decide, by decide⟩
    rw [h]
    decide
  · have h := (C5_map_selection (("f").data)
      [VaultItem.file (TFile.mk (("c.jpg").data)
          (("f/c.jpg").data) (("c").data)),
       VaultItem.file (TFile.mk (("d.webp").data)
          (("f/d.webp").data) (("d").data))]).2
      (by decide) (by decide)
    rw [h]
    decide

/-! ## Asset materializer (`loadFileAsDataUrl`, `src/main.js` lines 191-231) -/

/-- `MAX_FILE_BYTES = 8 * 1024 * 1024` (line 78). -/
def MAX_FILE_BYTES : Nat := 8 * 1024 * 1024

def base64Chars : Str :=
  ("ABCDEFGHIJKLMNOPQRSTUVWXYZabcdefghijklmnopqrstuvwxyz0123456789+/").data

def base64Char (n : Nat) : Char := base64Chars.getD n '?'

/-- Base64 of a byte sequence (the payload of the produced data URL). -/
def base64Encode : List (Fin 256) → Str
  | [] => []
  | [b1] =>
    [base64Char (b1.val / 4), base64Char (b1.val % 4 * 16), '=', '=']
  | [b1, b2] =>
    [base64Char (b1.val / 4), base64Char (b1.val % 4 * 16 + b2.val / 16),
     base64Char (b2.val % 16 * 4), '=']
  | b1 :: b2 :: b3 :: rest =>
    base64Char (b1.val / 4) :: base64Char (b1.val % 4 * 16 + b2.val / 16) ::
    base64Char (b2.val % 16 * 4 + b3.val / 64) :: base64Char (b3.val % 64) ::
    base64Encode rest

structure VaultFile where
  extension : Str
  name : Str
  path : Str
deriving DecidableEq

/-- `(file.extension || file.name?.split(".").pop() || "").toLowerCase()`. -/
def fileExtensionOf (f : VaultFile) : Str :=
  lcStr (if f.extension ≠ [] then f.extension
    else match (f.name.splitOnP (fun c => c = '.')).getLast? with
      | some last => last
      | none => [])

/-- `/^(png|jpe?g|webp)$/.test(extension)` on the lowercased extension. -/
def isImageExtension (ext : Str) : Bool :=
  ext == ("png").data || ext == ("jpg").data ||
  ext == ("jpeg").data || ext == ("webp").data

/-- `isPdf ? "application/pdf" : image/(ext === "jpg" ? "jpeg" : ext)`. -/
def mimeTypeFor (ext : Str) : Str :=
  if ext == ("pdf").data then ("application/pdf").data
  else ("image/").data ++ (if ext == ("jpg").data then ("jpeg").data else ext)

inductive LoadResult where
  | ok (dataUrl : Str)
  | noFile
  | unsupportedType
  | tooLarge
deriving DecidableEq

/-- `loadFileAsDataUrl` (lines 191-231); the vault's binary read is modelled
by passing the file bytes, and the read-failure catch path is outside the
model.  `noFile` / `unsupportedType` / `tooLarge` are the three reported
null-returning paths. -/
def loadFileAsDataUrl (file : Option VaultFile) (binary : List (Fin 256)) :
    LoadResult :=
  match file with
  | none => LoadResult.noFile
  | some f =>
    if ¬ (isImageExtension (fileExtensionOf f) ||
        fileExtensionOf f == ("pdf").data) then LoadResult.unsupportedType
    else if binary.length > MAX_FILE_BYTES then LoadResult.tooLarge
    else LoadResult.ok (("data:").data ++ mimeTypeFor (fileExtensionOf f) ++
      (";base64,").data ++ base64Encode binary)

example : loadFileAsDataUrl
    (some (VaultFile.mk (("PNG").data) (("m.PNG").data) (("f/m.PNG").data)))
    [⟨77, by omega⟩] =
    LoadResult.ok (("data:image/png;base64,TQ==").data) := by decide

example : loadFileAsDataUrl
    (some (VaultFile.mk [] (("notes.txt").data) (("f/notes.txt").data))) [] =
    LoadResult.unsupportedType := by decide

/-- C7: for every file with a recognized extension (png, jpg, jpeg, webp,
pdf), a binary of exactly `8*1024*1024 + 1` bytes is rejected on the
too-large path (returning null after the `FileTooLargeError` report) and a
binary of exactly `8*1024*1024` bytes is accepted, returning a data URL. -/
theorem C7_size_guard (f : VaultFile) (b1 b2 : List (Fin 256))
    (hext : fileExtensionOf f = ("png").data ∨
      fileExtensionOf f = ("jpg").data ∨
      fileExtensionOf f = ("jpeg").data ∨
      fileExtensionOf f = ("webp").data ∨
      fileExtensionOf f = ("pdf").data)
    (h1 : b1.length = 8 * 1024 * 1024 + 1)
    (h2 : b2.length = 8 * 1024 * 1024) :
    loadFileAsDataUrl (some f) b1 = LoadResult.tooLarge ∧
    ∃ u, loadFileAsDataUrl (some f) b2 = LoadResult.ok u := by
  have hsup : (isImageExtension (fileExtensionOf f) ||
      fileExtensionOf f == ("pdf").data) = true := by
    rcases hext with h | h | h | h | h <;> rw [h] <;> rfl
  constructor
  · simp only [loadFileAsDataUrl]
    rw [if_neg (fun hc => hc hsup)]
    rw [if_pos (by rw [h1]; unfold MAX_FILE_BYTES; omega)]
  · refine ⟨("data:").data ++ mimeTypeFor (fileExtensionOf f) ++
      (";base64,").data ++ base64Encode b2, ?_⟩
    simp only [loadFileAsDataUrl]
    rw [if_neg (fun hc => hc hsup)]
    rw [if_neg (by rw [h2]; unfold MAX_FILE_BYTES; omega)]

/-- Witness for C7: a png file with a binary of exactly the limit and one
byte over it. -/
theorem C7_size_guard_witness :
    loadFileAsDataUrl
      (some (VaultFile.mk (("png").data) (("m.png").data) (("f/m.png").data)))
      (List.replicate (8 * 1024 * 1024 + 1) (0 : Fin 256)) =
      LoadResult.tooLarge ∧
    ∃ u, loadFileAsDataUrl
      (some (VaultFile.mk (("png").data) (("m.png").data) (("f/m.png").data)))
      (List.replicate (8 * 1024 * 1024) (0 : Fin 256)) = LoadResult.ok u :=
  C7_size_guard
    (VaultFile.mk (("png").data) (("m.png").data) (("f/m.png").data))
    (List.replicate (8 * 1024 * 1024 + 1) (0 : Fin 256))
    (List.replicate (8 * 1024 * 1024) (0 : Fin 256))
    (Or.inl (by decide))
    (by rw [List.length_replicate])
    (by rw [List.length_replicate])

/-! ## GM zone annotation modal (`GmZoneModal`, `src/main.js` lines 524-709) -/

structure ZonePoint where
  id : Str
  x : ℚ
  y : ℚ
deriving DecidableEq

structure GmZoneState where
  zoneCount : Nat
  zonePrefix : Str
  customIds : Str
  points : List ZonePoint
deriving DecidableEq

/-- Decimal rendering of a natural number (the template `${index + 1}`). -/
def natToStr (n : Nat) : Str := (Nat.repr n).data

/-- `const provided = (this.customIds || "").split(/[,\n]/).map(trim)
.filter(Boolean)` (line 592). -/
def zoneIdsProvided (st : GmZoneState) : List Str :=
  ((GmZoneState.customIds st).splitOnP
    (fun c => c = ',' || c = '\n')).map trim |>.filter (fun x => !x.isEmpty)

/-- `getZoneIds` (lines 591-597). -/
def getZoneIds (st : GmZoneState) : List Str :=
  if (zoneIdsProvided st).length ≠ 0 then zoneIdsProvided st
  else (List.range (GmZoneState.zoneCount st)).map
    (fun i => GmZoneState.zonePrefix st ++ natToStr (i + 1))

/-- `parseInt(value, 10)`: skip leading whitespace, optional sign, then a
nonempty digit run, ignoring trailing garbage; `none` models `NaN`. -/
def parseIntJs (s : Str) : Option Int :=
  match (s.dropWhile isJsWhitespace) with
  | '-' :: r =>
    if r.takeWhile Char.isDigit = [] then none
    else some (-(digitsToNat (r.takeWhile Char.isDigit) : Int))
  | '+' :: r =>
    if r.takeWhile Char.isDigit = [] then none
    else some ((digitsToNat (r.takeWhile Char.isDigit) : Int))
  | s1 =>
    if s1.takeWhile Char.isDigit = [] then none
    else some ((digitsToNat (s1.takeWhile Char.isDigit) : Int))

/-- `handleConfigChange` (lines 584-590): clamp the count to at least 1
(`Math.max(1, parseInt(countValue, 10) || 1)`, carried on `Nat` via
`Int.toNat` of the clamped value, which is nonnegative), default the
trimmed prefix to `"Z"`, store the custom-ids text, and reset the markers. -/
def handleConfigChange (st : GmZoneState)
    (countValue prefixValue idsValue : Str) : GmZoneState :=
  { st with
    zoneCount := (max 1 (match parseIntJs countValue with
      | some n => if n = 0 then 1 else n
      | none => 1)).toNat
    zonePrefix := if (trim prefixValue).isEmpty then ("Z").data
      else trim prefixValue
    customIds := idsValue
    points := [] }

/-- `resetMarkers` (lines 598-604). -/
def resetMarkers (st : GmZoneState) : GmZoneState := { st with points := [] }

/-- The rendered image's bounding client rect. -/
structure Rect where
  left : ℚ
  top : ℚ
  width : ℚ
  height : ℚ
deriving DecidableEq

/-- The two `Notice`s a no-op click can report. -/
inductive ClickNotice where
  | noZones
  | allPlaced
deriving DecidableEq

/-- `handleMapClick` (lines 615-632): the next state together with the
notice shown when the click is a no-op. -/
def handleMapClick (st : GmZoneState) (rect : Rect) (clientX clientY : ℚ) :
    GmZoneState × Option ClickNotice :=
  if (getZoneIds st).length = 0 then (st, some ClickNotice.noZones)
  else if h : (getZoneIds st).length ≤ st.points.length then
    (st, some ClickNotice.allPlaced)
  else
    ({ st with points := st.points ++
      [ZonePoint.mk ((getZoneIds st).get ⟨st.points.length, by omega⟩)
        ((clientX - rect.left) / rect.width)
        ((clientY - rect.top) / rect.height)] }, none)

theorem getZoneIds_set_points (st : GmZoneState) (p : List ZonePoint) :
    getZoneIds { st with points := p } = getZoneIds st := rfl

theorem zoneCount_click (st : GmZoneState) (r : Rect) (cx cy : ℚ) :
    ((handleMapClick st r cx cy).1).zoneCount = st.zoneCount := by
  unfold handleMapClick
  split
  · rfl
  · split
    · rfl
    · rfl

theorem getZoneIds_click (st : GmZoneState) (r : Rect) (cx cy : ℚ) :
    getZoneIds ((handleMapClick st r cx cy).1) = getZoneIds st := by
  unfold handleMapClick
  split
  · rfl
  · split
    · rfl
    · rfl

theorem handleMapClick_points_push (st : GmZoneState) (r : Rect) (cx cy : ℚ)
    (h : st.points.length < (getZoneIds st).length) :
    ((handleMapClick st r cx cy).1).points =
      st.points ++ [ZonePoint.mk ((getZoneIds st).get ⟨st.points.length, h⟩)
        ((cx - r.left) / r.width) ((cy - r.top) / r.height)] := by
  unfold handleMapClick
  rw [if_neg (by omega), dif_neg (by omega)]

theorem handleMapClick_allPlaced (st : GmZoneState) (r : Rect) (cx cy : ℚ)
    (h0 : (getZoneIds st).length ≠ 0)
    (h : (getZoneIds st).length ≤ st.points.length) :
    handleMapClick st r cx cy = (st, some ClickNotice.allPlaced) := by
  unfold handleMapClick
  rw [if_neg h0, dif_pos h]

theorem handleMapClick_points_le (st : GmZoneState) (r : Rect) (cx cy : ℚ)
    (h : st.points.length ≤ (getZoneIds st).length) :
    ((handleMapClick st r cx cy).1).points.length ≤ (getZoneIds st).length := by
  unfold handleMapClick
  split
  · exact h
  · split
    · exact h
    · rename_i hlt
      simp only [List.length_append, List.length_cons, List.length_nil]
      omega

theorem handleMapClick_points_push_id (st : GmZoneState) (r : Rect)
    (cx cy : ℚ) (a : Str)
    (h : (getZoneIds st).get? st.points.length = some a) :
    ((handleMapClick st r cx cy).1).points =
      st.points ++ [ZonePoint.mk a ((cx - r.left) / r.width)
        ((cy - r.top) / r.height)] := by
  obtain ⟨hlt, hget⟩ := List.get?_eq_some.mp h
  rw [handleMapClick_points_push st r cx cy hlt, hget]

/-- C8: with zone identifiers `[a1, a2, a3]` and an empty point list, three
clicks place `ZonePoint`s carrying `a1, a2, a3` in click order at the
normalized click coordinates; a fourth click is a reported no-op leaving
exactly three points; and a click never grows a point list beyond the
identifier count. -/
theorem C8_zone_placement_order (st st1 st2 st3 : GmZoneState) (r : Rect)
    (a1 a2 a3 : Str) (c1x c1y c2x c2y c3x c3y c4x c4y : ℚ)
    (hids : getZoneIds st = [a1, a2, a3])
    (hpts : st.points = [])
    (h1 : st1 = (handleMapClick st r c1x c1y).1)
    (h2 : st2 = (handleMapClick st1 r c2x c2y).1)
    (h3 : st3 = (handleMapClick st2 r c3x c3y).1) :
    st3.points =
      [ZonePoint.mk a1 ((c1x - r.left) / r.width) ((c1y - r.top) / r.height),
       ZonePoint.mk a2 ((c2x - r.left) / r.width) ((c2y - r.top) / r.height),
       ZonePoint.mk a3 ((c3x - r.left) / r.width) ((c3y - r.top) / r.height)] ∧
    handleMapClick st3 r c4x c4y = (st3, some ClickNotice.allPlaced) ∧
    st3.points.length = 3 ∧
    (∀ (stA : GmZoneState) (rA : Rect) (cx cy : ℚ),
      stA.points.length ≤ (getZoneIds stA).length →
      ((handleMapClick stA rA cx cy).1).points.length ≤
        (getZoneIds stA).length) := by
  have hlen0 : st.points.length = 0 := by rw [hpts]; rfl
  have hp1 : st1.points =
      [ZonePoint.mk a1 ((c1x - r.left) / r.width) ((c1y - r.top) / r.height)] := by
    rw [h1, handleMapClick_points_push_id st r c1x c1y a1
      (by rw [hlen0, hids]; rfl), hpts]
    rfl
  have hids1 : getZoneIds st1 = [a1, a2, a3] := by
    rw [h1, getZoneIds_click, hids]
  have hp2 : st2.points =
      [ZonePoint.mk a1 ((c1x - r.left) / r.width) ((c1y - r.top) / r.height),
       ZonePoint.mk a2 ((c2x - r.left) / r.width) ((c2y - r.top) / r.height)] := by
    rw [h2, handleMapClick_points_push_id st1 r c2x c2y a2
      (by rw [hids1, hp1]; rfl), hp1]
    rfl
  have hids2 : getZoneIds st2 = [a1, a2, a3] := by
    rw [h2, getZoneIds_click, hids1]
  have hp3 : st3.points =
      [ZonePoint.mk a1 ((c1x - r.left) / r.width) ((c1y - r.top) / r.height),
       ZonePoint.mk a2 ((c2x - r.left) / r.width) ((c2y - r.top) / r.height),
       ZonePoint.mk a3 ((c3x - r.left) / r.width) ((c3y - r.top) / r.height)] := by
    rw [h3, handleMapClick_points_push_id st2 r c3x c3y a3
      (by rw [hids2, hp2]; rfl), hp2]
    rfl
  have hids3 : getZoneIds st3 = [a1, a2, a3] := by
    rw [h3, getZoneIds_click, hids2]
  refine ⟨hp3, ?_, ?_, ?_⟩
  · apply handleMapClick_allPlaced
    · rw [hids3]
      simp
    · rw [hids3, hp3]
      rfl
  · rw [hp3]
    rfl
  · intro stA rA cx cy h
    exact handleMapClick_points_le stA rA cx cy h

def c8State0 : GmZoneState :=
  { zoneCount := 6, zonePrefix := ("Z").data,
    customIds := ("A1,A2,A3").data, points := [] }

def c8Rect : Rect := { left := 0, top := 0, width := 1, height := 1 }

def c8State1 : GmZoneState := (handleMapClick c8State0 c8Rect 0 0).1

def c8State2 : GmZoneState :=
  (handleMapClick c8State1 c8Rect (1 / 2) (1 / 2)).1

def c8State3 : GmZoneState := (handleMapClick c8State2 c8Rect 1 1).1

/-- Witness for C8: the custom ids `"A1,A2,A3"` and three clicks on a unit
rect, followed by a fourth no-op click. -/
theorem C8_zone_placement_order_witness :
    c8State3.points =
      [ZonePoint.mk (("A1").data) ((0 - c8Rect.left) / c8Rect.width)
        ((0 - c8Rect.top) / c8Rect.height),
       ZonePoint.mk (("A2").data) ((1 / 2 - c8Rect.left) / c8Rect.width)
        ((1 / 2 - c8Rect.top) / c8Rect.height),
       ZonePoint.mk (("A3").data) ((1 - c8Rect.left) / c8Rect.width)
        ((1 - c8Rect.top) / c8Rect.height)] ∧
    handleMapClick c8State3 c8Rect (1 / 4) (1 / 4) =
      (c8State3, some ClickNotice.allPlaced) ∧
    c8State3.points.length = 3 := by
  have h := C8_zone_placement_order c8State0 c8State1 c8State2 c8State3 c8Rect
    (("A1").data) (("A2").data) (("A3").data) 0 0 (1 / 2) (1 / 2) 1 1
    (1 / 4) (1 / 4) (by decide) rfl rfl rfl rfl
  exact ⟨h.1, h.2.1, h.2.2.1⟩

/-- The state of a freshly opened `GmZoneModal` (constructor, lines 524-534). -/
def initialZoneState : GmZoneState :=
  { zoneCount := 6, zonePrefix := ("Z").data, customIds := [], points := [] }

/-- States reachable in one modal session: the constructor state, closed
under configuration changes, map clicks and marker clears. -/
inductive ZoneReachable : GmZoneState → Prop where
  | init : ZoneReachable initialZoneState
  | config (st : GmZoneState) (cv pv iv : Str) : ZoneReachable st →
      ZoneReachable (handleConfigChange st cv pv iv)
  | click (st : GmZoneState) (r : Rect) (cx cy : ℚ) : ZoneReachable st →
      ZoneReachable (handleMapClick st r cx cy).1
  | clear (st : GmZoneState) : ZoneReachable st →
      ZoneReachable (resetMarkers st)

theorem zoneCount_pos_of_reachable {st : GmZoneState}
    (hr : ZoneReachable st) : 1 ≤ st.zoneCount := by
  induction hr with
  | init => decide
  | config st cv pv iv hst ih =>
    show 1 ≤ (max 1 (match parseIntJs cv with
      | some n => if n = 0 then 1 else n
      | none => 1)).toNat
    have hle := le_max_left (1 : Int) (match parseIntJs cv with
      | some n => if n = 0 then 1 else n
      | none => 1)
    omega
  | click st r cx cy hst ih =>
    rw [zoneCount_click]
    exact ih
  | clear st hst ih => exact ih

theorem getZoneIds_ne_nil {st : GmZoneState} (h : 1 ≤ st.zoneCount) :
    getZoneIds st ≠ [] := by
  unfold getZoneIds
  split
  · rename_i hlen
    intro hc
    rw [hc] at hlen
    exact hlen rfl
  · intro hc
    have hlen := congrArg List.length hc
    rw [List.length_map, List.length_range] at hlen
    simp at hlen
    omega

/-- C9: `getZoneIds` never returns an empty list on a reachable modal state:
when the custom-id text has no nonempty entry it falls back to the generated
list `prefix ++ (i+1)` for `i < zoneCount`; `handleConfigChange` clamps
`zoneCount` to at least 1 (as does the constructor); consequently the
"Add at least one zone." no-op branch of `handleMapClick` is unreachable. -/
theorem C9_zone_ids_nonempty (st : GmZoneState) (hr : ZoneReachable st) :
    getZoneIds st ≠ [] ∧
    1 ≤ st.zoneCount ∧
    (∀ st' : GmZoneState, zoneIdsProvided st' = [] →
      getZoneIds st' = (List.range (GmZoneState.zoneCount st')).map
        (fun i => GmZoneState.zonePrefix st' ++ natToStr (i + 1))) ∧
    (∀ (st' : GmZoneState) (cv pv iv : Str),
      1 ≤ (handleConfigChange st' cv pv iv).zoneCount) ∧
    (∀ (r : Rect) (cx cy : ℚ),
      (handleMapClick st r cx cy).2 ≠ some ClickNotice.noZones) := by
  have hcount := zoneCount_pos_of_reachable hr
  refine ⟨getZoneIds_ne_nil hcount, hcount, ?_, ?_, ?_⟩
  · intro st' hprov
    unfold getZoneIds
    rw [hprov]
    simp
  · intro st' cv pv iv
    show 1 ≤ (max 1 (match parseIntJs cv with
      | some n => if n = 0 then 1 else n
      | none => 1)).toNat
    have hle := le_max_left (1 : Int) (match parseIntJs cv with
      | some n => if n = 0 then 1 else n
      | none => 1)
    omega
  · intro r cx cy
    unfold handleMapClick
    rw [if_neg (fun h0 =>
      getZoneIds_ne_nil hcount (List.length_eq_zero.mp h0))]
    split
    · simp
    · simp

/-- Witness for C9 at the constructor state of the modal. -/
theorem C9_zone_ids_nonempty_witness :
    getZoneIds initialZoneState ≠ [] ∧
    1 ≤ GmZoneState.zoneCount initialZoneState := by
  have h := C9_zone_ids_nonempty initialZoneState ZoneReachable.init
  exact ⟨h.1, h.2.1⟩

/-- Canvas drawing command issued by `renderLabeledImage`. -/
inductive DrawCmd where
  | image
  | font (size : Int)
  | disc (x y : ℚ) (radius : Int)
  | label (text : Str) (x y : ℚ)
deriving DecidableEq

/-- `renderLabeledImage` (lines 675-701) as its canvas command sequence: the
base image, the font assignment, then per placed point a filled disc and a
centred label at the de-normalized coordinates; the canvas is encoded with
mime `"image/png"` (the string passed to `canvas.toDataURL`). -/
def renderLabeledImage (st : GmZoneState) (w h : ℚ) : List DrawCmd × Str :=
  (DrawCmd.image ::
    DrawCmd.font (max 18 (round (w * (2 / 100)))) ::
    (st.points.enum.map (fun p =>
      [DrawCmd.disc (p.2.x * w) (p.2.y * h)
          (max 18 (round (w * (2 / 100)))),
       DrawCmd.label
         (if !p.2.id.isEmpty then p.2.id
          else match (getZoneIds st).get? p.1 with
            | some zid => zid
            | none => ("Z").data ++ natToStr (p.1 + 1))
         (p.2.x * w) (p.2.y * h)])).join,
   ("image/png").data)

structure MapFileInfo where
  basename : Str
  parentPath : Str
  extension : Str
deriving DecidableEq

structure SaveOutcome where
  commands : List DrawCmd
  mime : Str
  outputPath : Str
  savedSettingsPath : Str
deriving DecidableEq

/-- `saveLabeledMap` (lines 648-674): guard that every zone id has a placed
point, render the labelled image, write the binary to the sibling path
`{basename}_gm_zones.png` (overwriting an existing file in place), and
persist that path as `lastGmZonesPath`.  `none` models the
"Place all zones before saving." no-op. -/
def saveLabeledMap (st : GmZoneState) (mapFile : MapFileInfo) (w h : ℚ) :
    Option SaveOutcome :=
  if st.points.length ≠ (getZoneIds st).length then none
  else some
    { commands := (renderLabeledImage st w h).1
      mime := (renderLabeledImage st w h).2
      outputPath :=
        if mapFile.parentPath ≠ [] then
          mapFile.parentPath ++ '/' ::
            (mapFile.basename ++ ("_gm_zones.png").data)
        else mapFile.basename ++ ("_gm_zones.png").data
      savedSettingsPath :=
        if mapFile.parentPath ≠ [] then
          mapFile.parentPath ++ '/' ::
            (mapFile.basename ++ ("_gm_zones.png").data)
        else mapFile.basename ++ ("_gm_zones.png").data }

/-- C10: whenever the all-zones-placed guard passes, a save — for any source
map file, regardless of its extension — encodes as `image/png`, writes to
the sibling path `{basename}_gm_zones.png` in the same folder, and persists
exactly that output path as the last-GM-zones setting. -/
theorem C10_save_always_png (st : GmZoneState) (mapFile : MapFileInfo)
    (w h : ℚ) (hall : st.points.length = (getZoneIds st).length) :
    saveLabeledMap st mapFile w h = some
      { commands := (renderLabeledImage st w h).1
        mime := ("image/png").data
        outputPath :=
          if mapFile.parentPath ≠ [] then
            mapFile.parentPath ++ '/' ::
              (mapFile.basename ++ ("_gm_zones.png").data)
          else mapFile.basename ++ ("_gm_zones.png").data
        savedSettingsPath :=
          if mapFile.parentPath ≠ [] then
            mapFile.parentPath ++ '/' ::
              (mapFile.basename ++ ("_gm_zones.png").data)
          else mapFile.basename ++ ("_gm_zones.png").data } ∧
    (∀ o, saveLabeledMap st mapFile w h = some o →
      o.mime = ("image/png").data ∧
      o.savedSettingsPath = o.outputPath ∧
      ("_gm_zones.png").data <:+ o.outputPath) := by
  have heq : saveLabeledMap st mapFile w h = some
      { commands := (renderLabeledImage st w h).1
        mime := ("image/png").data
        outputPath :=
          if mapFile.parentPath ≠ [] then
            mapFile.parentPath ++ '/' ::
              (mapFile.basename ++ ("_gm_zones.png").data)
          else mapFile.basename ++ ("_gm_zones.png").data
        savedSettingsPath :=
          if mapFile.parentPath ≠ [] then
            mapFile.parentPath ++ '/' ::
              (mapFile.basename ++ ("_gm_zones.png").data)
          else mapFile.basename ++ ("_gm_zones.png").data } := by
    unfold saveLabeledMap
    rw [if_neg (fun hne => hne hall)]
    rfl
  refine ⟨heq, ?_⟩
  intro o ho
  rw [heq] at ho
  have ho' := Option.some.inj ho
  subst ho'
  refine ⟨rfl, rfl, ?_⟩
  by_cases hp : mapFile.parentPath ≠ []
  · simp only [if_pos hp]
    refine ⟨mapFile.parentPath ++ '/' :: mapFile.basename, ?_⟩
    simp
  · simp only [if_neg hp]
    exact ⟨mapFile.basename, rfl⟩

/-- Witness for C10: a single placed zone over a webp source map in folder
`Maps`. -/
theorem C10_save_always_png_witness :
    saveLabeledMap
      { zoneCount := 6, zonePrefix := ("Z").data,
        customIds := ("A1").data,
        points := [ZonePoint.mk (("A1").data) (1 / 2) (1 / 2)] }
      (MapFileInfo.mk (("cave").data) (("Maps").data) (("webp").data))
      100 100 = some
      { commands := (renderLabeledImage
          { zoneCount := 6, zonePrefix := ("Z").data,
            customIds := ("A1").data,
            points := [ZonePoint.mk (("A1").data) (1 / 2) (1 / 2)] }
          100 100).1
        mime := ("image/png").data
        outputPath := ("Maps/cave_gm_zones.png").data
        savedSettingsPath := ("Maps/cave_gm_zones.png").data } := by
  have h := (C10_save_always_png
    { zoneCount := 6, zonePrefix := ("Z").data,
      customIds := ("A1").data,
      points := [ZonePoint.mk (("A1").data) (1 / 2) (1 / 2)] }
    (MapFileInfo.mk (("cave").data) (("Maps").data) (("webp").data))
    100 100 (by decide)).1
  rw [h]
  rfl
